import Mathlib

/-!
Verification of the JSON post-processing helpers of `snd.py`
(`extract_cards_from_response`, `extract_card_id`, `extract_price_info`).

JSON values as produced by Python's `json` module are modelled by the
inductive type `Json` below.  JSON numbers are modelled by `ℚ`: every
numeric literal appearing in the application's data is a decimal literal,
which denotes a rational; Python booleans are kept as a separate
constructor because `json` decodes `true`/`false` to `bool`, a subclass of
`int`, and that subclass relation is reflected explicitly wherever the
source performs an `isinstance(value, (int, float))` test.  Python `dict`s
preserve insertion order, so a mapping is a list of key/value pairs in
that order (keys of a decoded JSON object are unique, but nothing below
relies on uniqueness).
-/

inductive Json where
  | null : Json
  | bool (b : Bool) : Json
  | num (q : ℚ) : Json
  | str (s : String) : Json
  | arr (xs : List Json) : Json
  | obj (fields : List (String × Json)) : Json

namespace Json

/-- Structural induction for `Json` with member-wise hypotheses for the
nested lists, used throughout in place of the auto-generated recursor. -/
theorem myRec (P : Json → Prop)
    (h1 : P .null) (h2 : ∀ b, P (.bool b)) (h3 : ∀ q, P (.num q))
    (h4 : ∀ s, P (.str s))
    (h5 : ∀ xs, (∀ x ∈ xs, P x) → P (.arr xs))
    (h6 : ∀ fs, (∀ p ∈ fs, P p.2) → P (.obj fs)) :
    ∀ j, P j := fun j =>
  match j with
  | .null => h1
  | .bool b => h2 b
  | .num q => h3 q
  | .str s => h4 s
  | .arr xs => h5 xs (fun x hx => myRec P h1 h2 h3 h4 h5 h6 x)
  | .obj fs => h6 fs (fun p hp => myRec P h1 h2 h3 h4 h5 h6 p.2)
termination_by j => sizeOf j
decreasing_by
  · have := List.sizeOf_lt_of_mem hx
    simp only [Json.arr.sizeOf_spec]
    omega
  · have h := List.sizeOf_lt_of_mem hp
    have h2 : sizeOf p.2 < sizeOf p := by
      obtain ⟨a, b⟩ := p
      simp
    simp only [Json.obj.sizeOf_spec]
    omega

end Json

/-- Python's `key in d` / `d[key]` on an (insertion-ordered) dict:
look a key up, returning the bound value when present. -/
def jLookup (fields : List (String × Json)) (k : String) : Option Json :=
  match fields with
  | [] => none
  | (k2, v) :: rest => if k2 = k then some v else jLookup rest k

example : jLookup [("a", .num 1), ("b", .null)] "b" = some .null := by rfl
example : jLookup [("a", .num 1)] "c" = none := by rfl

/-- `needle` occurs as a contiguous substring of `hay`; Python's
`needle in hay` on strings, over the underlying character lists. -/
def containsSub (needle : List Char) : List Char → Bool
  | [] => needle.isEmpty
  | c :: t => decide (needle <+: c :: t) || containsSub needle t

/-- The key test of the price walk in `extract_price_info`:
`any(price_key in key_lower for price_key in ["price", "amount", "value"])`
with `key_lower = key.lower()`.  Python's `str.lower` agrees with
character-wise `Char.toLower` on the ASCII keys JSON responses use. -/
def keyMatches (key : String) : Bool :=
  ["price", "amount", "value"].any
    (fun p => containsSub p.toList (key.toList.map Char.toLower))

example : keyMatches "minPrice" = true := by rfl
example : keyMatches "totalAmount" = true := by rfl
example : keyMatches "name" = false := by rfl

/-- `value.replace(",", "").replace("¥", "").replace("$", "")`:
replacing a single character by the empty string deletes every
occurrence of it. -/
def stripChars (s : String) : String :=
  String.mk (s.toList.filter (fun c => c ≠ ',' ∧ c ≠ '¥' ∧ c ≠ '$'))

example : stripChars "$1,000" = "1000" := by rfl

/-- Digits of a decimal literal read into a natural number. -/
def natOfDigits (ds : List ℕ) : ℕ :=
  ds.foldl (fun a d => a * 10 + d) 0

/-- Unsigned decimal literal: `digits`, `digits.`, `digits.digits` or
`.digits`, as Python's `float` accepts, returning the exact rational. -/
def parseUnsignedDec (cs : List Char) : Option ℚ :=
  let ip := cs.takeWhile Char.isDigit
  let rest := cs.dropWhile Char.isDigit
  let intVal : ℚ := (natOfDigits (ip.map fun c => c.toNat - 48) : ℕ)
  match rest with
  | [] => if ip.isEmpty then none else some intVal
  | '.' :: rest2 =>
    let fp := rest2.takeWhile Char.isDigit
    let rest3 := rest2.dropWhile Char.isDigit
    if rest3.isEmpty && !(ip.isEmpty && fp.isEmpty) then
      some (intVal +
        (natOfDigits (fp.map fun c => c.toNat - 48) : ℚ) / (10 : ℚ) ^ fp.length)
    else none
  | _ => none

/-- Python's `float(s)` on the plain decimal strings this application
coerces (surrounding whitespace stripped, optional sign, digits with an
optional fractional part): `none` is `ValueError`.  Exponent, `inf`/`nan`
and underscore forms of Python float literals do not occur in the price
strings handled here and are mapped to `none`. -/
def pyFloat (s : String) : Option ℚ :=
  let cs := ((s.toList.dropWhile (· = ' ')).reverse.dropWhile (· = ' ')).reverse
  match cs with
  | '-' :: rest => (parseUnsignedDec rest).map (fun q => -q)
  | '+' :: rest => parseUnsignedDec rest
  | _ => parseUnsignedDec cs

example : pyFloat "1000" = some 1000 := by rfl
example : pyFloat "12.5" = some (25 / 2) := by
  have h : pyFloat "12.5" =
      some (((12 : ℕ) : ℚ) + ((5 : ℕ) : ℚ) / (10 : ℚ) ^ 1) := rfl
  rw [h]
  norm_num
example : pyFloat "abc" = none := by rfl
example : pyFloat "" = none := by rfl
example : pyFloat "-3" = some (-3) := by rfl

/-- The per-value recording step of the price walk, for a value bound to a
key that matched `keyMatches`: `isinstance(value, (int, float))` is true
for numbers and for booleans (Python `bool` is a subclass of `int`, with
`float(True) = 1.0` and `False > 0` false); strings go through
`float(value.replace(",", "").replace("¥", "").replace("$", ""))` inside a
`try` whose bare `except` swallows the failure.  Only strictly positive
results are recorded. -/
def priceOfValue (v : Json) : List ℚ :=
  match v with
  | .num q => if 0 < q then [q] else []
  | .bool b => if b then [(1 : ℚ)] else []
  | .str s =>
    match pyFloat (stripChars s) with
    | some q => if 0 < q then [q] else []
    | none => []
  | _ => []

/-- One dict's direct contribution: the loop
`for key, value in obj.items(): ...` recording matching keys in insertion
order. -/
def directPrices : List (String × Json) → List ℚ
  | [] => []
  | (k, v) :: rest =>
    (if keyMatches k then priceOfValue v else []) ++ directPrices rest

mutual

/-- The recursive `walk` of `extract_price_info`, returning the prices it
appends to `all_prices` in traversal order: a dict first records its own
matching keys, then recurses into every value in insertion order; a list
recurses into its items in order; scalars contribute nothing. -/
def walkPrices : Json → List ℚ
  | .null => []
  | .bool _ => []
  | .num _ => []
  | .str _ => []
  | .arr xs => walkPricesList xs
  | .obj fs => directPrices fs ++ walkPricesFields fs
termination_by structural j => j

/-- `for item in obj: walk(item)`. -/
def walkPricesList : List Json → List ℚ
  | [] => []
  | x :: xs => walkPrices x ++ walkPricesList xs
termination_by structural l => l

/-- `for value in obj.values(): walk(value)`. -/
def walkPricesFields : List (String × Json) → List ℚ
  | [] => []
  | (_, v) :: rest => walkPrices v ++ walkPricesFields rest
termination_by structural l => l

end

/-- The result record of `extract_price_info`: `None` entries are `none`. -/
structure PriceInfo where
  lowest_price : Option ℚ
  highest_price : Option ℚ
  average_price : Option ℚ
  all_prices : List ℚ
deriving DecidableEq

/-- `extract_price_info`: run the walk, then fill the summary only when at
least one price was recorded (`if price_info["all_prices"]:`), with
`min`, `max` and `sum/len` of the recorded list. -/
def extract_price_info (data : Json) : PriceInfo :=
  match walkPrices data with
  | [] => ⟨none, none, none, []⟩
  | p :: ps =>
    ⟨some (ps.foldl min p), some (ps.foldl max p),
     some ((p :: ps).sum / ((p :: ps).length : ℚ)), p :: ps⟩

example :
    extract_price_info (.obj [("price", .num 4), ("amount", .num 2)]) =
      ⟨some 2, some 4, some 3, [4, 2]⟩ := by
  have h : walkPrices (.obj [("price", .num 4), ("amount", .num 2)]) = [4, 2] := rfl
  unfold extract_price_info
  rw [h]
  norm_num [PriceInfo.mk.injEq, List.foldl, List.sum_cons, List.sum_nil]

/-- Candidate keys probed at the top level by `extract_cards_from_response`. -/
def topLevelKeys : List String := ["items", "list", "data", "results", "cards", "products"]

/-- Narrower candidate keys probed one level below `root["data"]`. -/
def nestedKeys : List String := ["items", "list", "results", "cards"]

/-- The probe loop
`for key in keys: if key in d and isinstance(d[key], list): return d[key]`:
first key bound to a JSON array wins, later keys are never consulted. -/
def probeKeys (fields : List (String × Json)) : List String → Option (List Json)
  | [] => none
  | k :: ks =>
    match jLookup fields k with
    | some (.arr xs) => some xs
    | _ => probeKeys fields ks

/-- `extract_cards_from_response`: on a dict, probe `topLevelKeys`; when
that fails and `root["data"]` is itself a dict, probe `nestedKeys` inside
it; in every remaining case return the initial `cards = []`. -/
def extract_cards_from_response (response_data : Json) : List Json :=
  match response_data with
  | .obj fields =>
    match probeKeys fields topLevelKeys with
    | some xs => xs
    | none =>
      match jLookup fields "data" with
      | some (.obj inner) =>
        match probeKeys inner nestedKeys with
        | some xs => xs
        | none => []
      | _ => []
  | _ => []

example :
    extract_cards_from_response (.obj [("cards", .arr [.num 1]), ("items", .null)]) =
      [.num 1] := by rfl
example : extract_cards_from_response (.str "x") = [] := by rfl
example :
    extract_cards_from_response
      (.obj [("data", .obj [("results", .arr [.num 2])])]) = [.num 2] := by rfl

/-- Fractional digits of a nonnegative rational below `1`, one decimal
digit per step, with enough fuel for any decimal that terminates (floats
always do); used only to render non-integral numbers. -/
def fracStrAux : ℕ → ℚ → String
  | 0, _ => ""
  | fuel + 1, r =>
    if r = 0 then ""
    else
      let d : ℤ := ⌊r * 10⌋
      toString d ++ fracStrAux fuel (r * 10 - (d : ℚ))

/-- Python's `str` on a JSON number: integers (decoded to `int`) render as
their decimal digits; non-integral numbers (decoded to `float`) render as
sign, integer part, point and the terminating decimal expansion, which is
Python's shortest round-trip repr for the floats this application sees. -/
def ratPyStr (q : ℚ) : String :=
  if q.den = 1 then toString q.num
  else
    (if q < 0 then "-" else "") ++ toString ⌊|q|⌋ ++ "." ++
      (let f := fracStrAux 64 (|q| - (⌊|q|⌋ : ℚ))
       if f = "" then "0" else f)

mutual

/-- Python's `repr` on JSON-decoded values (`str` delegates to it for
everything except strings): `None`, `True`/`False`, numbers via
`ratPyStr`, strings in single quotes (escaping does not arise in ids),
lists in brackets and dicts in braces with `", "`-separated entries. -/
def pyRepr : Json → String
  | .null => "None"
  | .bool true => "True"
  | .bool false => "False"
  | .num q => ratPyStr q
  | .str s => "\x27" ++ s ++ "\x27"
  | .arr xs => "[" ++ pyReprList xs ++ "]"
  | .obj fs => "\x7b" ++ pyReprFields fs ++ "\x7d"
termination_by structural j => j

/-- Comma-joined `repr`s of the items of a list. -/
def pyReprList : List Json → String
  | [] => ""
  | [x] => pyRepr x
  | x :: y :: rest => pyRepr x ++ ", " ++ pyReprList (y :: rest)
termination_by structural l => l

/-- Comma-joined `repr`s of the entries of a dict. -/
def pyReprFields : List (String × Json) → String
  | [] => ""
  | [(k, v)] => "\x27" ++ k ++ "\x27: " ++ pyRepr v
  | (k, v) :: p :: rest =>
    "\x27" ++ k ++ "\x27: " ++ pyRepr v ++ ", " ++ pyReprFields (p :: rest)
termination_by structural l => l

end

/-- Python's `str` on a JSON-decoded value: the string itself for
strings, `repr` for everything else. -/
def pyStr (v : Json) : String :=
  match v with
  | .str s => s
  | v => pyRepr v

example : pyStr .null = "None" := by rfl
example : pyStr (.num 135232) = "135232" := by rfl
example : pyStr (.str "abc") = "abc" := by rfl
example : pyStr (.bool true) = "True" := by rfl

/-- The candidate id field names of `extract_card_id`, in probe order. -/
def id_fields : List String := ["id", "cardId", "tradingCardId", "productId", "item_id"]

/-- The probe loop of `extract_card_id`:
`for field in id_fields: if field in card_item: return str(card_item[field])`.
Presence alone decides; the bound value is only fed through `str`. -/
def probeId (card_item : List (String × Json)) : List String → Option String
  | [] => none
  | f :: rest =>
    match jLookup card_item f with
    | some v => some (pyStr v)
    | none => probeId card_item rest

/-- `extract_card_id`: probe `id_fields` in order, `None` when no
candidate field is present. -/
def extract_card_id (card_item : List (String × Json)) : Option String :=
  probeId card_item id_fields

example : extract_card_id [("name", .str "Pikachu"), ("cardId", .num 7)] = some "7" := by rfl
example : extract_card_id [("name", .str "Pikachu")] = none := by rfl
example : extract_card_id [("id", .null)] = some "None" := by rfl

/-!
Exception-explicit semantics.  To state that the extractors are total,
each Python operation that can raise is given an `Except`-valued model:
`d[key]` raises `KeyError` when the key is absent and `float(s)` raises
`ValueError` when the string does not parse.  The functions below follow
the source's control flow with those partial primitives explicit, so that
"never raises" is the theorem that they always return `.ok`.
-/

/-- `d[key]`: `KeyError` when absent. -/
def dictGetE (fields : List (String × Json)) (k : String) : Except String Json :=
  match jLookup fields k with
  | some v => .ok v
  | none => .error "KeyError"

/-- `key in d`. -/
def jMem (fields : List (String × Json)) (k : String) : Bool :=
  (jLookup fields k).isSome

/-- `float(s)`: `ValueError` when the string does not parse. -/
def pyFloatE (s : String) : Except String ℚ :=
  match pyFloat s with
  | some q => .ok q
  | none => .error "ValueError"

/-- The probe loop of `extract_cards_from_response` with explicit
indexing: membership is tested before every index, as in the source. -/
def probeKeysE (fields : List (String × Json)) : List String → Except String (Option (List Json))
  | [] => .ok none
  | k :: ks =>
    if jMem fields k then do
      let v ← dictGetE fields k
      match v with
      | .arr xs => pure (some xs)
      | _ => probeKeysE fields ks
    else probeKeysE fields ks

/-- `extract_cards_from_response` with explicit indexing. -/
def extract_cards_from_responseE (response_data : Json) : Except String (List Json) :=
  match response_data with
  | .obj fields => do
    let r ← probeKeysE fields topLevelKeys
    match r with
    | some xs => pure xs
    | none =>
      if jMem fields "data" then do
        let d ← dictGetE fields "data"
        match d with
        | .obj inner => do
          let r2 ← probeKeysE inner nestedKeys
          match r2 with
          | some xs => pure xs
          | none => pure []
        | _ => pure []
      else pure []
  | _ => pure []

/-- The probe loop of `extract_card_id` with explicit indexing. -/
def probeIdE (card_item : List (String × Json)) : List String → Except String (Option String)
  | [] => .ok none
  | f :: rest =>
    if jMem card_item f then do
      let v ← dictGetE card_item f
      pure (some (pyStr v))
    else probeIdE card_item rest

/-- `extract_card_id` with explicit indexing. -/
def extract_card_idE (card_item : List (String × Json)) : Except String (Option String) :=
  probeIdE card_item id_fields

/-- The recording step with `float` explicit: the source wraps the
coercion in `try: ... except: pass`, so a `ValueError` is caught on the
spot and contributes nothing. -/
def priceOfValueE (v : Json) : Except String (List ℚ) :=
  match v with
  | .num q => pure (if 0 < q then [q] else [])
  | .bool b => pure (if b then [(1 : ℚ)] else [])
  | .str s =>
    match pyFloatE (stripChars s) with
    | .ok q => pure (if 0 < q then [q] else [])
    | .error _ => pure []
  | _ => pure []

/-- The `for key, value in obj.items()` loop with explicit effects. -/
def directPricesE : List (String × Json) → Except String (List ℚ)
  | [] => pure []
  | (k, v) :: rest => do
    let here ← if keyMatches k then priceOfValueE v else pure []
    let there ← directPricesE rest
    pure (here ++ there)

mutual

/-- The `walk` of `extract_price_info` with explicit effects: an uncaught
exception anywhere in the tree would propagate through the binds. -/
def walkPricesE : Json → Except String (List ℚ)
  | .null => pure []
  | .bool _ => pure []
  | .num _ => pure []
  | .str _ => pure []
  | .arr xs => walkPricesListE xs
  | .obj fs => do
    let here ← directPricesE fs
    let there ← walkPricesFieldsE fs
    pure (here ++ there)
termination_by structural j => j

/-- `for item in obj: walk(item)` with explicit effects. -/
def walkPricesListE : List Json → Except String (List ℚ)
  | [] => pure []
  | x :: xs => do
    let here ← walkPricesE x
    let there ← walkPricesListE xs
    pure (here ++ there)
termination_by structural l => l

/-- `for value in obj.values(): walk(value)` with explicit effects. -/
def walkPricesFieldsE : List (String × Json) → Except String (List ℚ)
  | [] => pure []
  | (_, v) :: rest => do
    let here ← walkPricesE v
    let there ← walkPricesFieldsE rest
    pure (here ++ there)
termination_by structural l => l

end
/-! Helper predicates and lemmas. -/

/-- `key in d and isinstance(d[key], list)` as a Boolean, so hypotheses
about probe misses stay decidable. -/
def lookupIsArr (fields : List (String × Json)) (k : String) : Bool :=
  match jLookup fields k with
  | some (.arr _) => true
  | _ => false

/-- The input is a JSON object. -/
def Json.isObj : Json → Bool
  | .obj _ => true
  | _ => false

theorem lookupIsArr_iff (fields : List (String × Json)) (k : String) :
    lookupIsArr fields k = true ↔ ∃ xs, jLookup fields k = some (.arr xs) := by
  unfold lookupIsArr
  cases h : jLookup fields k with
  | none => simp
  | some v => cases v <;> simp

theorem probeKeys_cons_of_not (fields : List (String × Json)) (k : String)
    (ks : List String) (h : lookupIsArr fields k = false) :
    probeKeys fields (k :: ks) = probeKeys fields ks := by
  show (match jLookup fields k with
      | some (.arr xs) => some xs
      | _ => probeKeys fields ks) = probeKeys fields ks
  cases hv : jLookup fields k with
  | none => rfl
  | some v =>
    cases v <;> first
      | rfl
      | (exfalso; simp [lookupIsArr, hv] at h)

theorem probeKeys_cons_of_arr (fields : List (String × Json)) (k : String)
    (ks : List String) (xs : List Json) (h : jLookup fields k = some (.arr xs)) :
    probeKeys fields (k :: ks) = some xs := by
  show (match jLookup fields k with
      | some (.arr xs) => some xs
      | _ => probeKeys fields ks) = some xs
  rw [h]

theorem probeKeys_eq_none_iff (fields : List (String × Json)) (ks : List String) :
    probeKeys fields ks = none ↔ ∀ k ∈ ks, lookupIsArr fields k = false := by
  induction ks with
  | nil => simp [probeKeys]
  | cons k ks ih =>
    by_cases h : lookupIsArr fields k = true
    · obtain ⟨xs, hxs⟩ := (lookupIsArr_iff fields k).mp h
      rw [probeKeys_cons_of_arr fields k ks xs hxs]
      constructor
      · intro hc
        cases hc
      · intro h2
        rw [h2 k (List.mem_cons_self k ks)] at h
        cases h
    · have hf : lookupIsArr fields k = false := by
        cases hb : lookupIsArr fields k
        · rfl
        · exact absurd hb h
      rw [probeKeys_cons_of_not fields k ks hf, ih]
      constructor
      · rintro h2 k2 hk2
        rcases List.mem_cons.mp hk2 with rfl | h3
        · exact hf
        · exact h2 k2 h3
      · intro h2 k2 h3
        exact h2 k2 (List.mem_cons_of_mem k h3)

theorem probeKeys_first (fields : List (String × Json)) (pre post : List String)
    (k : String) (xs : List Json)
    (hk : jLookup fields k = some (.arr xs))
    (hpre : ∀ k2 ∈ pre, lookupIsArr fields k2 = false) :
    probeKeys fields (pre ++ k :: post) = some xs := by
  induction pre with
  | nil => exact probeKeys_cons_of_arr fields k post xs hk
  | cons k2 pre ih =>
    rw [List.cons_append,
      probeKeys_cons_of_not fields k2 (pre ++ k :: post)
        (hpre k2 (List.mem_cons_self k2 pre))]
    exact ih fun k3 h3 => hpre k3 (List.mem_cons_of_mem k2 h3)

theorem probeId_cons_of_absent (m : List (String × Json)) (f : String)
    (fs : List String) (h : jLookup m f = none) :
    probeId m (f :: fs) = probeId m fs := by
  show (match jLookup m f with
      | some v => some (pyStr v)
      | none => probeId m fs) = probeId m fs
  rw [h]

theorem probeId_cons_of_present (m : List (String × Json)) (f : String)
    (fs : List String) (v : Json) (h : jLookup m f = some v) :
    probeId m (f :: fs) = some (pyStr v) := by
  show (match jLookup m f with
      | some v => some (pyStr v)
      | none => probeId m fs) = some (pyStr v)
  rw [h]

theorem probeId_eq_none_iff (m : List (String × Json)) (fs : List String) :
    probeId m fs = none ↔ ∀ f ∈ fs, (jLookup m f).isSome = false := by
  induction fs with
  | nil => simp [probeId]
  | cons f fs ih =>
    cases h : jLookup m f with
    | none =>
      rw [probeId_cons_of_absent m f fs h, ih]
      constructor
      · rintro h2 f2 hf2
        rcases List.mem_cons.mp hf2 with rfl | h3
        · simp [h]
        · exact h2 f2 h3
      · intro h2 f2 h3
        exact h2 f2 (List.mem_cons_of_mem f h3)
    | some v =>
      rw [probeId_cons_of_present m f fs v h]
      constructor
      · intro hc
        cases hc
      · intro h2
        have := h2 f (List.mem_cons_self f fs)
        rw [h] at this
        cases this

theorem probeId_first (m : List (String × Json)) (pre post : List String)
    (f : String) (v : Json)
    (hf : jLookup m f = some v)
    (hpre : ∀ f2 ∈ pre, (jLookup m f2).isSome = false) :
    probeId m (pre ++ f :: post) = some (pyStr v) := by
  induction pre with
  | nil => exact probeId_cons_of_present m f post v hf
  | cons f2 pre ih =>
    have h2 : jLookup m f2 = none := by
      have := hpre f2 (List.mem_cons_self f2 pre)
      cases hl : jLookup m f2
      · rfl
      · rw [hl] at this
        cases this
    rw [List.cons_append, probeId_cons_of_absent m f2 (pre ++ f :: post) h2]
    exact ih fun f3 h3 => hpre f3 (List.mem_cons_of_mem f2 h3)

theorem priceOfValue_pos (v : Json) (q : ℚ) (hq : q ∈ priceOfValue v) : 0 < q := by
  cases v with
  | null => simp [priceOfValue] at hq
  | arr xs => simp [priceOfValue] at hq
  | obj fs => simp [priceOfValue] at hq
  | num q2 =>
    simp only [priceOfValue] at hq
    split at hq
    · rw [List.mem_singleton] at hq
      subst hq
      assumption
    · cases hq
  | bool b =>
    simp only [priceOfValue] at hq
    split at hq
    · rw [List.mem_singleton] at hq
      subst hq
      norm_num
    · cases hq
  | str s =>
    simp only [priceOfValue] at hq
    split at hq
    · split at hq
      · rw [List.mem_singleton] at hq
        subst hq
        assumption
      · cases hq
    · cases hq

theorem directPrices_pos (fs : List (String × Json)) (q : ℚ)
    (hq : q ∈ directPrices fs) : 0 < q := by
  induction fs with
  | nil => cases hq
  | cons p rest ih =>
    obtain ⟨k, v⟩ := p
    simp only [directPrices] at hq
    rcases List.mem_append.mp hq with h | h
    · split at h
      · exact priceOfValue_pos v q h
      · cases h
    · exact ih h

theorem walkPrices_pos : ∀ j : Json, ∀ q ∈ walkPrices j, 0 < q := by
  intro j
  induction j using Json.myRec with
  | h1 => simp [walkPrices]
  | h2 b => simp [walkPrices]
  | h3 q2 => simp [walkPrices]
  | h4 s => simp [walkPrices]
  | h5 xs ih =>
    simp only [walkPrices]
    induction xs with
    | nil => simp [walkPricesList]
    | cons x xs ihx =>
      simp only [walkPricesList]
      intro q hq
      rcases List.mem_append.mp hq with h | h
      · exact ih x (List.mem_cons_self x xs) q h
      · exact ihx (fun y hy => ih y (List.mem_cons_of_mem x hy)) q h
  | h6 fs ih =>
    simp only [walkPrices]
    intro q hq
    rcases List.mem_append.mp hq with h | h
    · exact directPrices_pos fs q h
    · clear hq
      induction fs with
      | nil => cases h
      | cons p rest ihf =>
        obtain ⟨k, v⟩ := p
        simp only [walkPricesFields] at h
        rcases List.mem_append.mp h with h2 | h2
        · exact ih (k, v) (List.mem_cons_self (k, v) rest) q h2
        · exact ihf (fun y hy => ih y (List.mem_cons_of_mem (k, v) hy)) h2

theorem foldl_min_le_init (p : ℚ) (ps : List ℚ) : List.foldl min p ps ≤ p := by
  induction ps generalizing p with
  | nil => simp
  | cons a ps ih => exact le_trans (ih (min p a)) (min_le_left p a)

theorem foldl_min_le_mem (p : ℚ) (ps : List ℚ) : ∀ x ∈ ps, List.foldl min p ps ≤ x := by
  induction ps generalizing p with
  | nil => simp
  | cons a ps ih =>
    intro x hx
    simp only [List.foldl_cons]
    rcases List.mem_cons.mp hx with rfl | hx2
    · exact le_trans (foldl_min_le_init (min p x) ps) (min_le_right p x)
    · exact ih (min p a) x hx2

theorem foldl_min_mem (p : ℚ) (ps : List ℚ) : List.foldl min p ps ∈ p :: ps := by
  induction ps generalizing p with
  | nil => simp
  | cons a ps ih =>
    simp only [List.foldl_cons]
    have h := ih (min p a)
    rcases List.mem_cons.mp h with h2 | h2
    · rw [h2]
      rcases min_choice p a with h3 | h3 <;> rw [h3]
      · exact List.mem_cons_self _ _
      · exact List.mem_cons_of_mem _ (List.mem_cons_self _ _)
    · exact List.mem_cons_of_mem _ (List.mem_cons_of_mem _ h2)

theorem foldl_max_init_le (p : ℚ) (ps : List ℚ) : p ≤ List.foldl max p ps := by
  induction ps generalizing p with
  | nil => simp
  | cons a ps ih => exact le_trans (le_max_left p a) (ih (max p a))

theorem foldl_max_ge_mem (p : ℚ) (ps : List ℚ) : ∀ x ∈ ps, x ≤ List.foldl max p ps := by
  induction ps generalizing p with
  | nil => simp
  | cons a ps ih =>
    intro x hx
    simp only [List.foldl_cons]
    rcases List.mem_cons.mp hx with rfl | hx2
    · exact le_trans (le_max_right p x) (foldl_max_init_le (max p x) ps)
    · exact ih (max p a) x hx2

theorem foldl_max_mem (p : ℚ) (ps : List ℚ) : List.foldl max p ps ∈ p :: ps := by
  induction ps generalizing p with
  | nil => simp
  | cons a ps ih =>
    simp only [List.foldl_cons]
    have h := ih (max p a)
    rcases List.mem_cons.mp h with h2 | h2
    · rw [h2]
      rcases max_choice p a with h3 | h3 <;> rw [h3]
      · exact List.mem_cons_self _ _
      · exact List.mem_cons_of_mem _ (List.mem_cons_self _ _)
    · exact List.mem_cons_of_mem _ (List.mem_cons_of_mem _ h2)

theorem mul_length_le_sum (m : ℚ) (l : List ℚ) (h : ∀ x ∈ l, m ≤ x) :
    m * l.length ≤ l.sum := by
  induction l with
  | nil => simp
  | cons a l ih =>
    simp only [List.sum_cons, List.length_cons]
    have h1 : m ≤ a := h a (List.mem_cons_self a l)
    have h2 : m * l.length ≤ l.sum := ih fun x hx => h x (List.mem_cons_of_mem a hx)
    push_cast
    linarith

theorem sum_le_mul_length (m : ℚ) (l : List ℚ) (h : ∀ x ∈ l, x ≤ m) :
    l.sum ≤ m * l.length := by
  induction l with
  | nil => simp
  | cons a l ih =>
    simp only [List.sum_cons, List.length_cons]
    have h1 : a ≤ m := h a (List.mem_cons_self a l)
    have h2 : l.sum ≤ m * l.length := ih fun x hx => h x (List.mem_cons_of_mem a hx)
    push_cast
    linarith

theorem extract_price_info_eq (j : Json) :
    extract_price_info j =
      match walkPrices j with
      | [] => ⟨none, none, none, []⟩
      | p :: ps =>
        ⟨some (ps.foldl min p), some (ps.foldl max p),
         some ((p :: ps).sum / ((p :: ps).length : ℚ)), p :: ps⟩ := rfl

theorem all_prices_eq_walk (j : Json) :
    (extract_price_info j).all_prices = walkPrices j := by
  rw [extract_price_info_eq]
  cases h : walkPrices j with
  | nil => rfl
  | cons p ps => rfl

theorem exceptBind_ok {α β : Type} (a : α) (f : α → Except String β) :
    (Except.ok a : Except String α) >>= f = f a := rfl

theorem exceptPure_eq_ok {α : Type} (a : α) :
    (pure a : Except String α) = Except.ok a := rfl

theorem probeKeysE_ok (fields : List (String × Json)) (ks : List String) :
    probeKeysE fields ks = .ok (probeKeys fields ks) := by
  induction ks with
  | nil => rfl
  | cons k ks ih =>
    simp only [probeKeysE, probeKeys, jMem, dictGetE]
    cases h : jLookup fields k with
    | none => simpa using ih
    | some v =>
      cases v <;> simp [exceptBind_ok, exceptPure_eq_ok, ih]

theorem extract_cards_from_responseE_ok (j : Json) :
    extract_cards_from_responseE j = .ok (extract_cards_from_response j) := by
  cases j with
  | obj fields =>
    simp only [extract_cards_from_responseE, extract_cards_from_response,
      probeKeysE_ok, jMem, dictGetE, exceptBind_ok]
    cases hp : probeKeys fields topLevelKeys with
    | some xs => rfl
    | none =>
      cases h : jLookup fields "data" with
      | none => simp [exceptPure_eq_ok]
      | some v =>
        cases v <;>
          simp only [Option.isSome_some, if_true, exceptBind_ok, probeKeysE_ok] <;>
          first
            | rfl
            | (cases hp2 : probeKeys _ nestedKeys <;>
                simp [exceptBind_ok, exceptPure_eq_ok, hp2])
  | null => rfl
  | bool b => rfl
  | num q => rfl
  | str s => rfl
  | arr xs => rfl

theorem probeIdE_ok (m : List (String × Json)) (fs : List String) :
    probeIdE m fs = .ok (probeId m fs) := by
  induction fs with
  | nil => rfl
  | cons f fs ih =>
    simp only [probeIdE, probeId, jMem, dictGetE]
    cases h : jLookup m f with
    | none => simpa using ih
    | some v => simp [exceptBind_ok, exceptPure_eq_ok]

theorem extract_card_idE_ok (m : List (String × Json)) :
    extract_card_idE m = .ok (extract_card_id m) :=
  probeIdE_ok m id_fields

theorem priceOfValueE_ok (v : Json) : priceOfValueE v = .ok (priceOfValue v) := by
  cases v with
  | str s =>
    simp only [priceOfValueE, priceOfValue, pyFloatE]
    cases h : pyFloat (stripChars s) <;> rfl
  | null => rfl
  | bool b => rfl
  | num q => rfl
  | arr xs => rfl
  | obj fs => rfl

theorem directPricesE_ok (fs : List (String × Json)) :
    directPricesE fs = .ok (directPrices fs) := by
  induction fs with
  | nil => rfl
  | cons p rest ih =>
    obtain ⟨k, v⟩ := p
    simp only [directPricesE, directPrices]
    cases hk : keyMatches k <;>
      simp [exceptBind_ok, exceptPure_eq_ok, priceOfValueE_ok, ih]

theorem walkPricesE_ok : ∀ j : Json, walkPricesE j = .ok (walkPrices j) := by
  intro j
  induction j using Json.myRec with
  | h1 => rfl
  | h2 b => rfl
  | h3 q => rfl
  | h4 s => rfl
  | h5 xs ih =>
    simp only [walkPricesE, walkPrices]
    induction xs with
    | nil => rfl
    | cons x xs ihx =>
      simp only [walkPricesListE, walkPricesList]
      rw [ih x (List.mem_cons_self x xs),
        ihx (fun y hy => ih y (List.mem_cons_of_mem x hy))]
      simp [exceptBind_ok, exceptPure_eq_ok]
  | h6 fs ih =>
    simp only [walkPricesE, walkPrices, directPricesE_ok]
    have h : walkPricesFieldsE fs = .ok (walkPricesFields fs) := by
      induction fs with
      | nil => rfl
      | cons p rest ihf =>
        obtain ⟨k, v⟩ := p
        simp only [walkPricesFieldsE, walkPricesFields]
        rw [ih (k, v) (List.mem_cons_self (k, v) rest),
          ihf (fun y hy => ih y (List.mem_cons_of_mem (k, v) hy))]
        simp [exceptBind_ok, exceptPure_eq_ok]
    rw [h]
    simp [exceptBind_ok, exceptPure_eq_ok]

/-! Claim theorems. -/

/-- C1: for every JSON mapping in which some candidate key of
`items, list, data, results, cards, products` is bound to a sequence,
`extract_cards_from_response` returns exactly the sequence bound to the
first such key in that fixed probe order, unmodified; earlier candidates
not bound to a sequence are skipped, and which sequence is most populated
plays no role. -/
theorem extract_cards_first_candidate_key
    (fields : List (String × Json)) (pre post : List String) (k : String)
    (xs : List Json)
    (hsplit : topLevelKeys = pre ++ k :: post)
    (hk : jLookup fields k = some (.arr xs))
    (hpre : ∀ k2 ∈ pre, lookupIsArr fields k2 = false) :
    extract_cards_from_response (.obj fields) = xs := by
  have hp : probeKeys fields topLevelKeys = some xs := by
    rw [hsplit]
    exact probeKeys_first fields pre post k xs hk hpre
  show (match probeKeys fields topLevelKeys with
      | some xs => xs
      | none =>
        match jLookup fields "data" with
        | some (.obj inner) =>
          match probeKeys inner nestedKeys with
          | some xs => xs
          | none => []
        | _ => []) = xs
  rw [hp]

/-- Witness for C1: `"list"` is bound to a one-element sequence and the
later candidate `"data"` to a two-element one; the first match wins. -/
theorem extract_cards_first_candidate_key_witness :
    topLevelKeys = ["items"] ++ "list" :: ["data", "results", "cards", "products"] ∧
    jLookup [("foo", Json.num 1), ("list", Json.arr [Json.str "a"]),
        ("data", Json.arr [Json.null, Json.null])] "list" =
      some (.arr [Json.str "a"]) ∧
    (∀ k2 ∈ ["items"],
      lookupIsArr [("foo", Json.num 1), ("list", Json.arr [Json.str "a"]),
        ("data", Json.arr [Json.null, Json.null])] k2 = false) ∧
    extract_cards_from_response
        (.obj [("foo", Json.num 1), ("list", Json.arr [Json.str "a"]),
          ("data", Json.arr [Json.null, Json.null])]) =
      [Json.str "a"] :=
  ⟨rfl, rfl, by decide,
    extract_cards_first_candidate_key _ ["items"] ["data", "results", "cards", "products"]
      "list" _ rfl rfl (by decide)⟩

/-- C2: when the top-level probe finds no candidate key bound to a
sequence, `extract_cards_from_response` repeats the probe over
`items, list, results, cards` one level deeper when `root["data"]` is a
mapping, returning the first sequence found there; in every other case
(nested probe also missing, `data` absent or not a mapping, or a
non-mapping input) the result is the empty sequence. -/
theorem extract_cards_nested_fallback :
    (∀ (fields inner : List (String × Json)) (pre post : List String)
        (k : String) (xs : List Json),
      (∀ k2 ∈ topLevelKeys, lookupIsArr fields k2 = false) →
      jLookup fields "data" = some (.obj inner) →
      nestedKeys = pre ++ k :: post →
      jLookup inner k = some (.arr xs) →
      (∀ k2 ∈ pre, lookupIsArr inner k2 = false) →
      extract_cards_from_response (.obj fields) = xs) ∧
    (∀ (fields inner : List (String × Json)),
      (∀ k ∈ topLevelKeys, lookupIsArr fields k = false) →
      jLookup fields "data" = some (.obj inner) →
      (∀ k ∈ nestedKeys, lookupIsArr inner k = false) →
      extract_cards_from_response (.obj fields) = []) ∧
    (∀ fields : List (String × Json),
      (∀ k ∈ topLevelKeys, lookupIsArr fields k = false) →
      (∀ v, jLookup fields "data" = some v → v.isObj = false) →
      extract_cards_from_response (.obj fields) = []) ∧
    (∀ j : Json, j.isObj = false → extract_cards_from_response j = []) := by
  refine ⟨?_, ?_, ?_, ?_⟩
  · intro fields inner pre post k xs h1 h2 h3 h4 h5
    have hp : probeKeys fields topLevelKeys = none :=
      (probeKeys_eq_none_iff fields topLevelKeys).mpr h1
    have hn : probeKeys inner nestedKeys = some xs := by
      rw [h3]
      exact probeKeys_first inner pre post k xs h4 h5
    show (match probeKeys fields topLevelKeys with
        | some xs => xs
        | none =>
          match jLookup fields "data" with
          | some (.obj inner) =>
            match probeKeys inner nestedKeys with
            | some xs => xs
            | none => []
          | _ => []) = xs
    rw [hp, h2]
    show (match probeKeys inner nestedKeys with
        | some xs => xs
        | none => []) = xs
    rw [hn]
  · intro fields inner h1 h2 h3
    have hp : probeKeys fields topLevelKeys = none :=
      (probeKeys_eq_none_iff fields topLevelKeys).mpr h1
    have hn : probeKeys inner nestedKeys = none :=
      (probeKeys_eq_none_iff inner nestedKeys).mpr h3
    show (match probeKeys fields topLevelKeys with
        | some xs => xs
        | none =>
          match jLookup fields "data" with
          | some (.obj inner) =>
            match probeKeys inner nestedKeys with
            | some xs => xs
            | none => []
          | _ => []) = []
    rw [hp, h2]
    show (match probeKeys inner nestedKeys with
        | some xs => xs
        | none => []) = []
    rw [hn]
  · intro fields h1 hno
    have hp : probeKeys fields topLevelKeys = none :=
      (probeKeys_eq_none_iff fields topLevelKeys).mpr h1
    show (match probeKeys fields topLevelKeys with
        | some xs => xs
        | none =>
          match jLookup fields "data" with
          | some (.obj inner) =>
            match probeKeys inner nestedKeys with
            | some xs => xs
            | none => []
          | _ => []) = []
    rw [hp]
    cases hd : jLookup fields "data" with
    | none => rfl
    | some v =>
      have hv := hno v hd
      cases v <;> first
        | rfl
        | (exfalso; simp [Json.isObj] at hv)
  · intro j hj
    cases j <;> first
      | rfl
      | (exfalso; simp [Json.isObj] at hj)

/-- Witness for C2: no top-level candidate key holds a sequence, but
`root["data"]` is a mapping whose `"cards"` holds one; the fallback probe
finds it after skipping `items, list, results`. -/
theorem extract_cards_nested_fallback_witness :
    (∀ k ∈ topLevelKeys,
      lookupIsArr [("data", Json.obj [("cards", Json.arr [Json.num 9])])] k = false) ∧
    jLookup [("data", Json.obj [("cards", Json.arr [Json.num 9])])] "data" =
      some (.obj [("cards", Json.arr [Json.num 9])]) ∧
    nestedKeys = ["items", "list", "results"] ++ "cards" :: [] ∧
    jLookup [("cards", Json.arr [Json.num 9])] "cards" =
      some (.arr [Json.num 9]) ∧
    (∀ k2 ∈ ["items", "list", "results"],
      lookupIsArr [("cards", Json.arr [Json.num 9])] k2 = false) ∧
    extract_cards_from_response
        (.obj [("data", Json.obj [("cards", Json.arr [Json.num 9])])]) =
      [Json.num 9] :=
  ⟨by decide, rfl, rfl, rfl, by decide,
    extract_cards_nested_fallback.1 _ _ ["items", "list", "results"] [] "cards" _
      (by decide) rfl rfl rfl (by decide)⟩

/-- C3: every element of `all_prices` is strictly positive: a numeric or
string-coerced value under a matching key is recorded only when it is
strictly greater than zero, so `0` and negative values never appear. -/
theorem all_prices_strictly_positive (j : Json) (q : ℚ)
    (hq : q ∈ (extract_price_info j).all_prices) : 0 < q := by
  rw [all_prices_eq_walk] at hq
  exact walkPrices_pos j q hq

/-- Witness for C3: `price: 2` is recorded while `amount: 0`,
`value: -3` and the string `"0"` are all rejected by the positivity
filter, and the recorded `2` is strictly positive. -/
theorem all_prices_strictly_positive_witness :
    (extract_price_info
        (.obj [("price", Json.num 2), ("amount", Json.num 0),
          ("value", Json.num (-3)), ("minPrice", Json.str "0")])).all_prices =
      [2] ∧
    (2 : ℚ) ∈ (extract_price_info
        (.obj [("price", Json.num 2), ("amount", Json.num 0),
          ("value", Json.num (-3)), ("minPrice", Json.str "0")])).all_prices ∧
    (0 : ℚ) < 2 :=
  ⟨by decide, by decide,
    all_prices_strictly_positive
      (.obj [("price", Json.num 2), ("amount", Json.num 0),
        ("value", Json.num (-3)), ("minPrice", Json.str "0")]) 2 (by decide)⟩

/-- C4: a string under a matching key is coerced after stripping `,`,
`¥` and `$` — `"1,234"` under `"minPrice"` is recorded as `1234.0` —
while a string that fails coercion contributes nothing and the walk
continues over the remaining entries unchanged. -/
theorem price_string_coercion :
    walkPrices (.obj [("minPrice", Json.str "1,234")]) = [1234] ∧
    (∀ (k s : String) (fields : List (String × Json)),
      keyMatches k = true →
      pyFloat (stripChars s) = none →
      walkPrices (.obj ((k, Json.str s) :: fields)) = walkPrices (.obj fields)) := by
  constructor
  · decide
  · intro k s fields hk hs
    show directPrices ((k, Json.str s) :: fields) ++
        walkPricesFields ((k, Json.str s) :: fields) =
      directPrices fields ++ walkPricesFields fields
    simp only [directPrices, walkPricesFields, walkPrices, hk, if_true,
      priceOfValue, hs]
    simp

/-- Witness for C4: `"abc"` under the matching key `"minPrice"` fails
coercion and is skipped, while the later `price: 7` entry is unaffected. -/
theorem price_string_coercion_witness :
    keyMatches "minPrice" = true ∧
    pyFloat (stripChars "abc") = none ∧
    walkPrices (.obj [("minPrice", Json.str "abc"), ("price", Json.num 7)]) =
      walkPrices (.obj [("price", Json.num 7)]) :=
  ⟨by decide, by decide,
    price_string_coercion.2 "minPrice" "abc" [("price", Json.num 7)]
      (by decide) (by decide)⟩

/-- C9: the price walk inherits Python's `bool <: int`: a matching key
bound to `true` records `1.0`, and a matching key bound to `false` is
never recorded (it fails the `> 0` filter). -/
theorem bool_price_recorded :
    (∀ (fields : List (String × Json)) (k : String),
      keyMatches k = true → (k, Json.bool true) ∈ fields →
      (1 : ℚ) ∈ walkPrices (.obj fields)) ∧
    (∀ (fields : List (String × Json)) (k : String),
      walkPrices (.obj ((k, Json.bool false) :: fields)) =
        walkPrices (.obj fields)) := by
  constructor
  · intro fields k hk hmem
    have h : (1 : ℚ) ∈ directPrices fields := by
      induction fields with
      | nil => cases hmem
      | cons p rest ih =>
        rcases List.mem_cons.mp hmem with rfl | h2
        · simp only [directPrices, hk, if_true, priceOfValue]
          simp
        · obtain ⟨k2, v2⟩ := p
          simp only [directPrices]
          exact List.mem_append.mpr (Or.inr (ih h2))
    show (1 : ℚ) ∈ directPrices fields ++ walkPricesFields fields
    exact List.mem_append.mpr (Or.inl h)
  · intro fields k
    show directPrices ((k, Json.bool false) :: fields) ++
        walkPricesFields ((k, Json.bool false) :: fields) =
      directPrices fields ++ walkPricesFields fields
    simp only [directPrices, walkPricesFields, walkPrices, priceOfValue]
    cases hk : keyMatches k <;> simp

/-- Witness for C9: `price: true` records `1.0`. -/
theorem bool_price_recorded_witness :
    keyMatches "price" = true ∧
    ("price", Json.bool true) ∈ [("price", Json.bool true)] ∧
    (1 : ℚ) ∈ walkPrices (.obj [("price", Json.bool true)]) :=
  ⟨by decide, List.mem_singleton.mpr rfl,
    bool_price_recorded.1 [("price", Json.bool true)] "price" (by decide)
      (List.mem_singleton.mpr rfl)⟩

/-- C6: the extractors are total over JSON values: under the
exception-explicit semantics (indexing may raise `KeyError`, `float` may
raise `ValueError`, and any uncaught exception propagates), the shape
extractor, the card-id extractor and the price walk always return `.ok`
of their pure result; absence is an empty sequence or `none`, never an
exception. -/
theorem extractors_total :
    (∀ j : Json,
      extract_cards_from_responseE j = .ok (extract_cards_from_response j)) ∧
    (∀ m : List (String × Json),
      extract_card_idE m = .ok (extract_card_id m)) ∧
    (∀ j : Json, walkPricesE j = .ok (walkPrices j)) :=
  ⟨extract_cards_from_responseE_ok, extract_card_idE_ok, walkPricesE_ok⟩

/-- C7: `extract_card_id` probes `id, cardId, tradingCardId, productId,
item_id` in that order and returns the first present field's value fed
through `str`; later candidates are never consulted, and `None` is
returned only when none of the five fields is present. -/
theorem extract_card_id_first_field :
    (∀ (m : List (String × Json)) (pre post : List String) (f : String) (v : Json),
      id_fields = pre ++ f :: post →
      jLookup m f = some v →
      (∀ f2 ∈ pre, (jLookup m f2).isSome = false) →
      extract_card_id m = some (pyStr v)) ∧
    (∀ m : List (String × Json),
      (∀ f ∈ id_fields, (jLookup m f).isSome = false) →
      extract_card_id m = none) := by
  constructor
  · intro m pre post f v hsplit hf hpre
    unfold extract_card_id
    rw [hsplit]
    exact probeId_first m pre post f v hf hpre
  · intro m h
    unfold extract_card_id
    exact (probeId_eq_none_iff m id_fields).mpr h

/-- Witness for C7: `"id"` is absent and `"cardId"` is bound to `7`, so
the probe skips `"id"` and returns `"7"`; the later candidate
`"productId"` is never consulted. -/
theorem extract_card_id_first_field_witness :
    id_fields = ["id"] ++ "cardId" :: ["tradingCardId", "productId", "item_id"] ∧
    jLookup [("name", Json.str "Pikachu"), ("cardId", Json.num 7),
        ("productId", Json.num 9)] "cardId" = some (Json.num 7) ∧
    (∀ f2 ∈ ["id"],
      (jLookup [("name", Json.str "Pikachu"), ("cardId", Json.num 7),
        ("productId", Json.num 9)] f2).isSome = false) ∧
    extract_card_id [("name", Json.str "Pikachu"), ("cardId", Json.num 7),
        ("productId", Json.num 9)] = some "7" :=
  ⟨rfl, rfl, by decide,
    extract_card_id_first_field.1 _ ["id"] ["tradingCardId", "productId", "item_id"]
      "cardId" (Json.num 7) rfl rfl (by decide)⟩

/-- C10: `extract_card_id` decides by key presence alone: a first present
candidate field bound to JSON `null` yields the string `"None"` (Python's
`str(None)`), and the absent result arises exactly when none of the five
candidate fields exists in the mapping. -/
theorem extract_card_id_null_value :
    (∀ (m : List (String × Json)) (pre post : List String) (f : String),
      id_fields = pre ++ f :: post →
      jLookup m f = some Json.null →
      (∀ f2 ∈ pre, (jLookup m f2).isSome = false) →
      extract_card_id m = some "None") ∧
    (∀ m : List (String × Json),
      extract_card_id m = none ↔
        ∀ f ∈ id_fields, (jLookup m f).isSome = false) := by
  constructor
  · intro m pre post f hsplit hf hpre
    unfold extract_card_id
    rw [hsplit]
    exact probeId_first m pre post f Json.null hf hpre
  · intro m
    exact probeId_eq_none_iff m id_fields

/-- Witness for C10: `"id"` is present but bound to `null`; the result is
the string `"None"`, not the absent value. -/
theorem extract_card_id_null_value_witness :
    id_fields = [] ++ "id" :: ["cardId", "tradingCardId", "productId", "item_id"] ∧
    jLookup [("id", Json.null), ("cardId", Json.num 5)] "id" = some Json.null ∧
    (∀ f2 ∈ ([] : List String),
      (jLookup [("id", Json.null), ("cardId", Json.num 5)] f2).isSome = false) ∧
    extract_card_id [("id", Json.null), ("cardId", Json.num 5)] = some "None" :=
  ⟨rfl, rfl, by decide,
    extract_card_id_null_value.1 _ [] ["cardId", "tradingCardId", "productId", "item_id"]
      "id" rfl rfl (by decide)⟩

/-- C8: on `{"streetwears": [{"id": 1, "minPrice": "$1,000"},
 {"id": 2, "minPrice": 500}]}` the shape extractor finds no candidate key
and returns the empty sequence, while the price walk records
`[1000.0, 500.0]` in traversal order, with lowest `500.0`, highest
`1000.0` and average `750.0`. -/
theorem example_streetwears_response :
    extract_cards_from_response (.obj [("streetwears", Json.arr [
        .obj [("id", Json.num 1), ("minPrice", Json.str "$1,000")],
        .obj [("id", Json.num 2), ("minPrice", Json.num 500)]])]) = [] ∧
    extract_price_info (.obj [("streetwears", Json.arr [
        .obj [("id", Json.num 1), ("minPrice", Json.str "$1,000")],
        .obj [("id", Json.num 2), ("minPrice", Json.num 500)]])]) =
      ⟨some 500, some 1000, some 750, [1000, 500]⟩ := by
  constructor
  · rfl
  · have hw : walkPrices (.obj [("streetwears", Json.arr [
        .obj [("id", Json.num 1), ("minPrice", Json.str "$1,000")],
        .obj [("id", Json.num 2), ("minPrice", Json.num 500)]])]) =
      [1000, 500] := by decide
    rw [extract_price_info_eq, hw]
    norm_num [PriceInfo.mk.injEq, List.foldl, List.sum_cons, List.sum_nil]

theorem extract_price_info_cons (j : Json) (p : ℚ) (ps : List ℚ)
    (hw : walkPrices j = p :: ps) :
    extract_price_info j =
      ⟨some (ps.foldl min p), some (ps.foldl max p),
       some ((p :: ps).sum / ((p :: ps).length : ℚ)), p :: ps⟩ := by
  rw [extract_price_info_eq, hw]

/-- C5: when at least one price is recorded, `lowest_price` is the
minimum of `all_prices`, `highest_price` its maximum, `average_price`
their arithmetic mean, and the mean lies between the two; when nothing is
recorded all three summary fields are absent and `all_prices` is empty —
a normal result, not an error. -/
theorem price_summary_bounds :
    (∀ j : Json, (extract_price_info j).all_prices = [] →
      extract_price_info j = ⟨none, none, none, []⟩) ∧
    (∀ j : Json, (extract_price_info j).all_prices ≠ [] →
      ∃ lo hi : ℚ,
        (extract_price_info j).lowest_price = some lo ∧
        (extract_price_info j).highest_price = some hi ∧
        (extract_price_info j).average_price =
          some ((extract_price_info j).all_prices.sum /
            ((extract_price_info j).all_prices.length : ℚ)) ∧
        lo ∈ (extract_price_info j).all_prices ∧
        (∀ x ∈ (extract_price_info j).all_prices, lo ≤ x) ∧
        hi ∈ (extract_price_info j).all_prices ∧
        (∀ x ∈ (extract_price_info j).all_prices, x ≤ hi) ∧
        lo ≤ (extract_price_info j).all_prices.sum /
          ((extract_price_info j).all_prices.length : ℚ) ∧
        (extract_price_info j).all_prices.sum /
          ((extract_price_info j).all_prices.length : ℚ) ≤ hi) := by
  constructor
  · intro j h
    rw [all_prices_eq_walk] at h
    rw [extract_price_info_eq, h]
  · intro j h
    rw [all_prices_eq_walk] at h
    obtain ⟨p, ps, hw⟩ : ∃ p ps, walkPrices j = p :: ps := by
      cases hwc : walkPrices j with
      | nil => exact absurd hwc h
      | cons p ps => exact ⟨p, ps, rfl⟩
    have hc := extract_price_info_cons j p ps hw
    rw [hc]
    have hlomem : ps.foldl min p ∈ p :: ps := foldl_min_mem p ps
    have hlole : ∀ x ∈ p :: ps, ps.foldl min p ≤ x := by
      intro x hx
      rcases List.mem_cons.mp hx with rfl | hx2
      · exact foldl_min_le_init x ps
      · exact foldl_min_le_mem p ps x hx2
    have hhimem : ps.foldl max p ∈ p :: ps := foldl_max_mem p ps
    have hhige : ∀ x ∈ p :: ps, x ≤ ps.foldl max p := by
      intro x hx
      rcases List.mem_cons.mp hx with rfl | hx2
      · exact foldl_max_init_le x ps
      · exact foldl_max_ge_mem p ps x hx2
    have hlen : (0 : ℚ) < ((p :: ps).length : ℚ) := by
      rw [List.length_cons]
      push_cast
      positivity
    refine ⟨ps.foldl min p, ps.foldl max p, rfl, rfl, rfl, hlomem, hlole,
      hhimem, hhige, ?_, ?_⟩
    · rw [le_div_iff₀ hlen]
      exact mul_length_le_sum (ps.foldl min p) (p :: ps) hlole
    · rw [div_le_iff₀ hlen]
      exact sum_le_mul_length (ps.foldl max p) (p :: ps) hhige

/-- Witness for C5: on `{price: 4, amount: 2}` at least one price is
recorded, so the summary fields are all present, with the stated min,
max and mean relations instantiated at that input. -/
theorem price_summary_bounds_witness :
    (extract_price_info
        (.obj [("price", Json.num 4), ("amount", Json.num 2)])).all_prices ≠ [] ∧
    (∃ lo hi : ℚ,
      (extract_price_info
          (.obj [("price", Json.num 4), ("amount", Json.num 2)])).lowest_price =
        some lo ∧
      (extract_price_info
          (.obj [("price", Json.num 4), ("amount", Json.num 2)])).highest_price =
        some hi ∧
      (extract_price_info
          (.obj [("price", Json.num 4), ("amount", Json.num 2)])).average_price =
        some ((extract_price_info
            (.obj [("price", Json.num 4), ("amount", Json.num 2)])).all_prices.sum /
          (((extract_price_info
            (.obj [("price", Json.num 4), ("amount", Json.num 2)])).all_prices.length : ℚ))) ∧
      lo ∈ (extract_price_info
          (.obj [("price", Json.num 4), ("amount", Json.num 2)])).all_prices ∧
      (∀ x ∈ (extract_price_info
          (.obj [("price", Json.num 4), ("amount", Json.num 2)])).all_prices, lo ≤ x) ∧
      hi ∈ (extract_price_info
          (.obj [("price", Json.num 4), ("amount", Json.num 2)])).all_prices ∧
      (∀ x ∈ (extract_price_info
          (.obj [("price", Json.num 4), ("amount", Json.num 2)])).all_prices, x ≤ hi) ∧
      lo ≤ (extract_price_info
          (.obj [("price", Json.num 4), ("amount", Json.num 2)])).all_prices.sum /
        (((extract_price_info
          (.obj [("price", Json.num 4), ("amount", Json.num 2)])).all_prices.length : ℚ)) ∧
      (extract_price_info
          (.obj [("price", Json.num 4), ("amount", Json.num 2)])).all_prices.sum /
        (((extract_price_info
          (.obj [("price", Json.num 4), ("amount", Json.num 2)])).all_prices.length : ℚ)) ≤ hi) :=
  ⟨by decide,
    price_summary_bounds.2 (.obj [("price", Json.num 4), ("amount", Json.num 2)])
      (by decide)⟩
